import Mathlib

/-!
Shallow embedding of `src/streams/chd_stream.c` (libretro-common): a CHD
disc-image track exposed as a byte stream, with track-metadata discovery,
track-selector resolution, single-hunk caching and read/seek/tell cursor
logic.  Machine integers are modelled as `Nat`/`Int`; the one place where
unsigned wrap-around matters (the `size_t` clamp `track_end - offset` in
`chdstream_read`) carries an explicit `% 2^64`.  The storage engine
(libchdr) is modelled by its request/response contract: a header, three
tagged metadata record sequences, and a per-hunk read oracle.
-/

namespace ChdStream

/-- `SECTOR_SIZE` from chd_stream.c. -/
def SECTOR_SIZE : Nat := 2352

/-- `TRACK_PAD` from chd_stream.c. -/
def TRACK_PAD : Nat := 4

/-- Modelled from the spec: the selector surface uses reserved negative
sentinels for the three symbolic track selectors (`chd_stream.h` is not among
the sources); only their negativity and distinctness matter. -/
def CHDSTREAM_TRACK_FIRST_DATA : Int := -1

def CHDSTREAM_TRACK_LAST : Int := -2

def CHDSTREAM_TRACK_PRIMARY : Int := -3

/-- Standard C stdio seek origin `SEEK_SET`. -/
def SEEK_SET : Int := 0

/-- Standard C stdio seek origin `SEEK_CUR`. -/
def SEEK_CUR : Int := 1

/-- Standard C stdio seek origin `SEEK_END`. -/
def SEEK_END : Int := 2

/-- Standard C stdio `EOF`. -/
def EOF : Int := -1

/-- The modulus of `size_t` arithmetic (2 ^ 64), written as a literal. -/
def UINT64_MOD : Nat := 18446744073709551616

/-- `stream->hunknum` is an `int32_t` initialised to `-1`; the cache-hit
comparison `hunknum == stream->hunknum` converts it to `uint32_t`, where
`-1` reads back as `2^32 - 1`.  We store the field as that unsigned value. -/
def HUNKNUM_SENTINEL : Nat := 4294967295

/-- Header geometry returned by `chd_get_header`. -/
structure ChdHeader where
  hunkbytes : Nat
  unitbytes : Nat
deriving DecidableEq

/-- Parsed field layout of a `CDROM_TRACK_METADATA2_TAG` record
(`CDROM_TRACK_METADATA2_FORMAT`: track, type, subtype, frames, pregap,
pgtype, pgsub, postgap). -/
structure Meta2Rec where
  track : Nat
  type : String
  subtype : String
  frames : Nat
  pregap : Nat
  pgtype : String
  pgsub : String
  postgap : Nat
deriving DecidableEq

/-- Parsed field layout of a `CDROM_TRACK_METADATA_TAG` record
(`CDROM_TRACK_METADATA_FORMAT`: track, type, subtype, frames). -/
structure Meta1Rec where
  track : Nat
  type : String
  subtype : String
  frames : Nat
deriving DecidableEq

/-- Parsed field layout of a `GDROM_TRACK_METADATA_TAG` record
(`GDROM_TRACK_METADATA_FORMAT`: track, type, subtype, frames, pad, pregap,
pgtype, pgsub, postgap). -/
structure GdromRec where
  track : Nat
  type : String
  subtype : String
  frames : Nat
  pad : Nat
  pregap : Nat
  pgtype : String
  pgsub : String
  postgap : Nat
deriving DecidableEq

/-- The storage-engine session (`chd_file *`) as seen through the contract
the stream consumes: header geometry, the three tagged metadata record
sequences (`chd_get_metadata` succeeds exactly on indices below the length
of the corresponding sequence; the textual parse is abstracted into the
already-split fields), and `chd_read` as a success oracle `readOk` plus the
decompressed bytes `hunkData hunk i` it stores into the destination. -/
structure ChdFile where
  header : ChdHeader
  meta2 : List Meta2Rec
  meta1 : List Meta1Rec
  gdrom : List GdromRec
  hunkData : Nat → Nat → Nat
  readOk : Nat → Bool

/-- `metadata_t` from chd_stream.c. -/
structure Metadata where
  type : String
  subtype : String
  pgtype : String
  pgsub : String
  frame_offset : Nat
  frames : Nat
  pad : Nat
  extra : Nat
  pregap : Nat
  postgap : Nat
  track : Nat
deriving DecidableEq

/-- The all-zero `metadata_t` produced by `memset(md, 0, sizeof(*md))`
(zeroed char arrays read back as empty strings). -/
def Metadata.zero : Metadata :=
  { type := "", subtype := "", pgtype := "", pgsub := "", frame_offset := 0,
    frames := 0, pad := 0, extra := 0, pregap := 0, postgap := 0, track := 0 }

/-- `padding_frames`: `((frames + TRACK_PAD - 1) & ~(TRACK_PAD - 1)) - frames`,
i.e. round up to a multiple of `TRACK_PAD` and subtract. -/
def padding_frames (frames : Nat) : Nat :=
  (frames + TRACK_PAD - 1) / TRACK_PAD * TRACK_PAD - frames

/-- `chdstream_get_meta`: zeroes `*md`, then tries the extended CD format,
the legacy CD format and the GD-ROM format in that order, filling exactly
the fields each format's `sscanf` writes and deriving `extra`.  On failure
the out-parameter keeps the zeroed value (this matters: callers observe it). -/
def chdstream_get_meta (chd : ChdFile) (idx : Nat) : Bool × Metadata :=
  match chd.meta2.get? idx with
  | some r =>
    (true, { Metadata.zero with
             track := r.track
             type := r.type
             subtype := r.subtype
             frames := r.frames
             pregap := r.pregap
             pgtype := r.pgtype
             pgsub := r.pgsub
             postgap := r.postgap
             extra := padding_frames r.frames })
  | none =>
  match chd.meta1.get? idx with
  | some r =>
    (true, { Metadata.zero with
             track := r.track
             type := r.type
             subtype := r.subtype
             frames := r.frames
             extra := padding_frames r.frames })
  | none =>
  match chd.gdrom.get? idx with
  | some r =>
    (true, { Metadata.zero with
             track := r.track
             type := r.type
             subtype := r.subtype
             frames := r.frames
             pad := r.pad
             pregap := r.pregap
             pgtype := r.pgtype
             pgsub := r.pgsub
             postgap := r.postgap
             extra := padding_frames r.frames })
  | none => (false, Metadata.zero)

/-- One more than the largest index at which any of the three tagged record
sequences still has a record: `chdstream_get_meta` succeeds exactly on
indices below this. -/
def numRecords (chd : ChdFile) : Nat :=
  max chd.meta2.length (max chd.meta1.length chd.gdrom.length)

/-- The loop body of `chdstream_find_track_number`: scan records from index
`i` accumulating `frame_offset += frames + extra` until the record's track
number matches or `chdstream_get_meta` fails.  The loop in the C source is
unbounded but provably exits by index `numRecords chd`, so running it with
fuel `numRecords chd + 1 - i` is exact; the fuel-0 value coincides with the
failure exit. -/
def find_track_number_aux (chd : ChdFile) (track : Nat) (i fo : Nat)
    (fuel : Nat) : Bool × Metadata :=
  match fuel with
  | 0 => (false, Metadata.zero)
  | fuel + 1 =>
    match chdstream_get_meta chd i with
    | (false, md) => (false, md)
    | (true, md) =>
      if track = md.track then (true, { md with frame_offset := fo })
      else find_track_number_aux chd track (i + 1) (fo + md.frames + md.extra) fuel

/-- `chdstream_find_track_number`.  On failure the out-parameter `*meta`
holds `Metadata.zero` (the final failing `chdstream_get_meta` zeroed it). -/
def chdstream_find_track_number (chd : ChdFile) (track : Nat) : Bool × Metadata :=
  find_track_number_aux chd track 0 0 (numRecords chd + 1)

/-- The loop of `chdstream_find_special_track`, with explicit fuel because
for `CHDSTREAM_TRACK_PRIMARY` on a container without a data track the C
loop never terminates; `none` means the loop did not exit within `fuel`
iterations.  Faithful to the source: when `chdstream_find_track_number`
fails, `iter` holds the zeroed metadata, and that zeroed value is what the
`LAST` branch copies out and what the `switch` inspects. -/
def find_special_track_aux (chd : ChdFile) (track : Int)
    (i largest_track largest_size : Nat) (fuel : Nat) :
    Option (Bool × Metadata) :=
  match fuel with
  | 0 => none
  | fuel + 1 =>
    let r := chdstream_find_track_number chd i
    if r.1 = false ∧ track = CHDSTREAM_TRACK_LAST ∧ 1 < i then
      some (true, r.2)
    else if r.1 = false ∧ track = CHDSTREAM_TRACK_PRIMARY ∧ largest_track ≠ 0 then
      some (chdstream_find_track_number chd largest_track)
    else if track = CHDSTREAM_TRACK_FIRST_DATA ∧ r.2.type ≠ "AUDIO" then
      some (true, r.2)
    else if track = CHDSTREAM_TRACK_PRIMARY ∧ r.2.type ≠ "AUDIO" ∧
        largest_size < r.2.frames then
      find_special_track_aux chd track (i + 1) r.2.track r.2.frames fuel
    else
      find_special_track_aux chd track (i + 1) largest_track largest_size fuel

/-- `chdstream_find_special_track` (loop started at `i = 1` with
`largest_track = largest_size = 0`). -/
def chdstream_find_special_track (chd : ChdFile) (track : Int) (fuel : Nat) :
    Option (Bool × Metadata) :=
  find_special_track_aux chd track 1 0 0 fuel

/-- `chdstream_find_track`. -/
def chdstream_find_track (chd : ChdFile) (track : Int) (fuel : Nat) :
    Option (Bool × Metadata) :=
  if track < 0 then chdstream_find_special_track chd track fuel
  else some (chdstream_find_track_number chd track.toNat)

/-- `struct chdstream`.  `hunkmem` is the hunk-sized cache buffer viewed as
a byte function (its `malloc` content is unspecified; the model starts it
at zeroes, and nothing is ever read from it before a hunk is loaded). -/
structure Stream where
  chd : ChdFile
  swab : Bool
  frame_size : Nat
  frame_offset : Nat
  frames_per_hunk : Nat
  track_frame : Nat
  track_start : Nat
  track_end : Nat
  offset : Nat
  hunknum : Nat
  hunkmem : Nat → Nat

/-- `chdstream_open` (with the engine session given directly and resolution
fuel threaded to `chdstream_find_special_track`; `chd_open`, `calloc` and
`malloc` failures are construction failures outside the modelled logic).
A `none` resolution (selector loop did not terminate) yields no stream. -/
def chdstream_open (chd : ChdFile) (track : Int) (fuel : Nat) : Option Stream :=
  match chdstream_find_track chd track fuel with
  | none => none
  | some (false, _) => none
  | some (true, meta) =>
    some
      { chd := chd
        swab := meta.type == "AUDIO"
        frame_size :=
          if meta.type = "MODE1_RAW" then SECTOR_SIZE
          else if meta.type = "MODE2_RAW" then SECTOR_SIZE
          else if meta.type = "AUDIO" then SECTOR_SIZE
          else chd.header.unitbytes
        frame_offset := 0
        frames_per_hunk := chd.header.hunkbytes / chd.header.unitbytes
        track_frame := meta.frame_offset
        track_start :=
          (if meta.type = meta.pgtype then meta.pregap else 0) *
            (if meta.type = "MODE1_RAW" then SECTOR_SIZE
             else if meta.type = "MODE2_RAW" then SECTOR_SIZE
             else if meta.type = "AUDIO" then SECTOR_SIZE
             else chd.header.unitbytes)
        track_end :=
          (if meta.type = meta.pgtype then meta.pregap else 0) *
            (if meta.type = "MODE1_RAW" then SECTOR_SIZE
             else if meta.type = "MODE2_RAW" then SECTOR_SIZE
             else if meta.type = "AUDIO" then SECTOR_SIZE
             else chd.header.unitbytes) +
          meta.frames *
            (if meta.type = "MODE1_RAW" then SECTOR_SIZE
             else if meta.type = "MODE2_RAW" then SECTOR_SIZE
             else if meta.type = "AUDIO" then SECTOR_SIZE
             else chd.header.unitbytes)
        offset := 0
        hunknum := HUNKNUM_SENTINEL
        hunkmem := fun _ => 0 }

/-- The in-place 16-bit byte swap applied to a freshly loaded hunk when
`stream->swab` is set: `count = hunkbytes / 2` words are swapped, i.e. the
bytes of each pair `(2w, 2w+1)` with `w < hunkbytes / 2` are exchanged. -/
def swab16 (hunkbytes : Nat) (f : Nat → Nat) : Nat → Nat := fun i =>
  if i < 2 * (hunkbytes / 2) then f (2 * (i / 2) + (1 - i % 2)) else f i

/-- The cache buffer content after a successful physical load of hunk `h`:
the decompressed bytes, byte-swapped when the stream's audio flag is set. -/
def expectedMem (chd : ChdFile) (swab : Bool) (h : Nat) : Nat → Nat :=
  if swab then swab16 chd.header.hunkbytes (chd.hunkData h) else chd.hunkData h

/-- Result of `chdstream_load_hunk`, instrumented with the number of
`chd_read` calls the invocation performed (0 or 1). -/
structure LoadResult where
  ok : Bool
  stream : Stream
  chdReads : Nat

/-- `chdstream_load_hunk`: no-op on a cache hit; otherwise one `chd_read`
call, and on success the byte swap (when `swab`) followed by committing the
hunk number.  On a failed `chd_read` the cached hunk number is unchanged
(the model also leaves the buffer unchanged; nothing is proved about the
buffer on that path). -/
def chdstream_load_hunk (s : Stream) (hunknum : Nat) : LoadResult :=
  if hunknum = s.hunknum then ⟨true, s, 0⟩
  else if s.chd.readOk hunknum then
    ⟨true,
      { s with
        hunkmem :=
          if s.swab then swab16 s.chd.header.hunkbytes (s.chd.hunkData hunknum)
          else s.chd.hunkData hunknum
        hunknum := hunknum }, 1⟩
  else ⟨false, s, 1⟩

/-- `chd_frame` as computed in the read loop for a cursor position `p`:
`track_frame + (p - track_start) / frame_size`. -/
def chdFrame (s : Stream) (p : Nat) : Nat :=
  s.track_frame + (p - s.track_start) / s.frame_size

/-- `hunk` as computed in the read loop: `chd_frame / frames_per_hunk`. -/
def hunkOf (s : Stream) (p : Nat) : Nat :=
  chdFrame s p / s.frames_per_hunk

/-- `hunk_offset` as computed in the read loop:
`(chd_frame % frames_per_hunk) * hd->unitbytes`. -/
def hunkByteOf (s : Stream) (p : Nat) : Nat :=
  chdFrame s p % s.frames_per_hunk * s.chd.header.unitbytes

/-- `amount` for the chunk starting at the current cursor:
`frame_size - offset % frame_size`, capped at `end - offset`. -/
def chunkAmount (s : Stream) (endPos : Nat) : Nat :=
  if endPos - s.offset < s.frame_size - s.offset % s.frame_size
  then endPos - s.offset else s.frame_size - s.offset % s.frame_size

/-- The `while (stream->offset < end)` loop of `chdstream_read`, with the
caller's buffer modelled as the list of bytes written in order, and
instrumented with the count of `chd_read` calls.  The boolean is `true`
when the source reached its `abort()` call (hunk load failure): the process
terminates there, so the accompanying values are what had been delivered to
the buffer up to that point.  Fuel only bounds iteration count; callers use
fuel `end - offset`, which suffices because every iteration consumes at
least one byte (for `frame_size > 0`). -/
def read_loop (s : Stream) (endPos : Nat) (out : List Nat) (reads fuel : Nat) :
    Bool × List Nat × Stream × Nat :=
  match fuel with
  | 0 => (false, out, s, reads)
  | fuel + 1 =>
    if s.offset < endPos then
      if s.offset < s.track_start then
        read_loop { s with offset := s.offset + chunkAmount s endPos } endPos
          (out ++ List.replicate (chunkAmount s endPos) 0) reads fuel
      else
        let r := chdstream_load_hunk s (hunkOf s s.offset)
        if r.ok then
          read_loop { r.stream with offset := r.stream.offset + chunkAmount s endPos }
            endPos
            (out ++ (List.range (chunkAmount s endPos)).map
              (fun j => r.stream.hunkmem
                (s.offset % s.frame_size + hunkByteOf s s.offset +
                  r.stream.frame_offset + j)))
            (reads + r.chdReads) fuel
        else (true, out, r.stream, reads + r.chdReads)
    else (false, out, s, reads)

/-- Outcome of `chdstream_read`.  `aborted = true` models the source
calling `abort()` (process termination; the `return -1` after it is
unreachable, recorded here as `ret = -1` purely as a placeholder).  `out`
is the byte sequence written to the caller's buffer, `chdReads` the number
of `chd_read` calls performed. -/
structure ReadOutcome where
  aborted : Bool
  ret : Int
  out : List Nat
  stream : Stream
  chdReads : Nat

/-- `chdstream_read`: clamp `bytes` by the `size_t` difference
`track_end - offset` (explicit `% 2^64`), then run the chunk loop. -/
def chdstream_read (s : Stream) (bytes0 : Nat) : ReadOutcome :=
  let bytes :=
    if (s.track_end + UINT64_MOD - s.offset) % UINT64_MOD < bytes0
    then (s.track_end + UINT64_MOD - s.offset) % UINT64_MOD else bytes0
  let r := read_loop s (s.offset + bytes) [] 0 bytes
  if r.1 then ⟨true, -1, r.2.1, r.2.2.1, r.2.2.2⟩
  else ⟨false, (bytes : Int), r.2.1, r.2.2.1, r.2.2.2⟩

/-- `sizeof(char)`. -/
def sizeof_char : Nat := 1

/-- `chdstream_getc`, verbatim from the source: `char c = 0;` then
`chdstream_read(stream, &c, sizeof(c) != sizeof(c))` — the byte count is
the boolean `sizeof(c) != sizeof(c)`, which evaluates to 0 — and the call
returns `EOF` when that read's return value is nonzero, else `c`. -/
def chdstream_getc (s : Stream) : Int × Stream :=
  let r := chdstream_read s (if sizeof_char ≠ sizeof_char then 1 else 0)
  let c : Nat := r.out.headD 0
  if r.ret ≠ 0 then (EOF, r.stream) else ((c : Int), r.stream)

/-- The `while (offset < len && (c = chdstream_getc(stream)) != EOF)` loop
of `chdstream_gets`, the buffer modelled as the list of stored bytes.  The
fuel starts at `len`, which is exact: the loop body runs at most `len`
times and the fuel-0 value coincides with the `offset = len` exit. -/
def gets_aux (s : Stream) (len offset : Nat) (buf : List Nat) (fuel : Nat) :
    List Nat × Nat × Stream :=
  match fuel with
  | 0 => (buf, offset, s)
  | fuel + 1 =>
    if offset < len then
      let r := chdstream_getc s
      if r.1 = EOF then (buf, offset, r.2)
      else gets_aux r.2 len (offset + 1) (buf ++ [r.1.toNat]) fuel
    else (buf, offset, s)

/-- Result of `chdstream_gets`: the bytes the loop stored (`data`), whether
the trailing `'\0'` was written (`terminated`, the `if (offset < len)`
check), and the stream. -/
structure GetsResult where
  data : List Nat
  terminated : Bool
  stream : Stream

/-- `chdstream_gets`. -/
def chdstream_gets (s : Stream) (len : Nat) : GetsResult :=
  let r := gets_aux s len 0 [] len
  if r.2.1 < len then ⟨r.1, true, r.2.2⟩ else ⟨r.1, false, r.2.2⟩

/-- `chdstream_tell`. -/
def chdstream_tell (s : Stream) : Nat := s.offset

/-- `chdstream_rewind`. -/
def chdstream_rewind (s : Stream) : Stream := { s with offset := 0 }

/-- `chdstream_seek`: result code (`0` ok, `-1` error) and the stream.
`new_offset` is an `ssize_t`; values stay far from 2^63 in every reachable
use, so plain `Int` arithmetic is the faithful model. -/
def chdstream_seek (s : Stream) (offset whence : Int) : Int × Stream :=
  let new_offset : Option Int :=
    if whence = SEEK_SET then some offset
    else if whence = SEEK_CUR then some ((s.offset : Int) + offset)
    else if whence = SEEK_END then some ((s.track_end : Int) + offset)
    else none
  match new_offset with
  | none => (-1, s)
  | some n =>
    if n < 0 then (-1, s)
    else if (s.track_end : Int) < n then (0, { s with offset := s.track_end })
    else (0, { s with offset := n.toNat })

/-- The seek behaviour exactly as the specification words it (spec-side
model for the refinement claim): a candidate per origin — `offset`
(absolute), `current_offset + offset` (relative), `track_end + offset`
(from-end), unrecognized origin an error with no state change — a negative
candidate an error with no state change, and otherwise success with the
candidate clamped to `track_end`. -/
def seekSpec (s : Stream) (offset whence : Int) : Int × Stream :=
  let candidate : Option Int :=
    if whence = SEEK_SET then some offset
    else if whence = SEEK_CUR then some ((s.offset : Int) + offset)
    else if whence = SEEK_END then some ((s.track_end : Int) + offset)
    else none
  match candidate with
  | none => (-1, s)
  | some c =>
    if c < 0 then (-1, s)
    else (0, { s with offset := min c.toNat s.track_end })

/-! ### Concrete fixtures used by witnesses and counterexamples -/

/-- A container with one cooked ("ISO") track of two 4-byte frames, hunks of
8 bytes (two frames per hunk), every hunk readable; byte `i` of hunk `h`
decompresses to `h * 100 + i`. -/
def chdS : ChdFile :=
  { header := ⟨8, 4⟩
    meta2 := []
    meta1 := [⟨1, "ISO", "NONE", 2⟩]
    gdrom := []
    hunkData := fun h i => h * 100 + i
    readOk := fun _ => true }

/-- The stream `chdstream_open chdS 1` constructs. -/
def sS : Stream :=
  ⟨chdS, false, 4, 0, 2, 0, 0, 8, 0, HUNKNUM_SENTINEL, fun _ => 0⟩

/-- A container whose hunk reads always fail. -/
def chdF : ChdFile := { chdS with readOk := fun _ => false }

/-- A stream over `chdF` with a 4-byte pregap (`track_start = 4`) and
8 data bytes (`track_end = 12`). -/
def sF : Stream :=
  ⟨chdF, false, 4, 0, 2, 0, 4, 12, 0, HUNKNUM_SENTINEL, fun _ => 0⟩

/-- A container with three tracks (the spec's LAST scenario): track 1
MODE1_RAW of 100 frames, track 2 AUDIO of 50 frames, track 3 AUDIO of
25 frames. -/
def chd3 : ChdFile :=
  { header := ⟨8, 4⟩
    meta2 := [⟨1, "MODE1_RAW", "NONE", 100, 0, "", "", 0⟩,
              ⟨2, "AUDIO", "NONE", 50, 150, "AUDIO", "NONE", 0⟩,
              ⟨3, "AUDIO", "NONE", 25, 0, "", "", 0⟩]
    meta1 := []
    gdrom := []
    hunkData := fun _ _ => 7
    readOk := fun _ => true }

/-- A container whose only track is AUDIO (no data track at all). -/
def chdA : ChdFile :=
  { header := ⟨8, 4⟩
    meta2 := [⟨1, "AUDIO", "NONE", 10, 0, "", "", 0⟩]
    meta1 := []
    gdrom := []
    hunkData := fun _ _ => 7
    readOk := fun _ => true }

/-- The spec §8 pregap scenario: track 1 MODE1_RAW with 100 frames and no
pregap, track 2 AUDIO with 50 frames and a 150-frame pregap whose reported
type matches the track type. -/
def chdScn : ChdFile :=
  { header := ⟨4704, 2352⟩
    meta2 := [⟨1, "MODE1_RAW", "NONE", 100, 0, "", "", 0⟩,
              ⟨2, "AUDIO", "NONE", 50, 150, "AUDIO", "NONE", 0⟩]
    meta1 := []
    gdrom := []
    hunkData := fun _ _ => 7
    readOk := fun _ => true }

/-- The metadata record track selector 2 resolves to in `chdScn`
(cumulative frame offset 100 = track 1's 100 frames plus 0 pad). -/
def metaScn : Metadata :=
  { type := "AUDIO", subtype := "NONE", pgtype := "AUDIO", pgsub := "NONE",
    frame_offset := 100, frames := 50, pad := 0, extra := 2, pregap := 150,
    postgap := 0, track := 2 }

/-- The stream `chdstream_open chdScn 2` constructs: a 352800-byte
addressable pregap (150 frames of 2352 bytes) followed by 50 data frames. -/
def sScn : Stream :=
  ⟨chdScn, true, 2352, 0, 2, 100, 352800, 470400, 0, HUNKNUM_SENTINEL,
    fun _ => 0⟩

/-- The metadata record `chdstream_get_meta` yields at index 0 of `chdA`. -/
def mA1 : Metadata :=
  { Metadata.zero with
    track := 1
    type := "AUDIO"
    subtype := "NONE"
    frames := 10
    extra := 2 }

/-! ### Helper lemmas -/

theorem getc_eq (s : Stream) : chdstream_getc s = (0, s) := rfl

@[simp] theorem load_hunk_offset (s : Stream) (h : Nat) :
    (chdstream_load_hunk s h).stream.offset = s.offset := by
  unfold chdstream_load_hunk; split_ifs <;> rfl

@[simp] theorem load_hunk_frame_size (s : Stream) (h : Nat) :
    (chdstream_load_hunk s h).stream.frame_size = s.frame_size := by
  unfold chdstream_load_hunk; split_ifs <;> rfl

@[simp] theorem load_hunk_frame_offset (s : Stream) (h : Nat) :
    (chdstream_load_hunk s h).stream.frame_offset = s.frame_offset := by
  unfold chdstream_load_hunk; split_ifs <;> rfl

@[simp] theorem load_hunk_track_start (s : Stream) (h : Nat) :
    (chdstream_load_hunk s h).stream.track_start = s.track_start := by
  unfold chdstream_load_hunk; split_ifs <;> rfl

@[simp] theorem load_hunk_track_end (s : Stream) (h : Nat) :
    (chdstream_load_hunk s h).stream.track_end = s.track_end := by
  unfold chdstream_load_hunk; split_ifs <;> rfl

@[simp] theorem load_hunk_track_frame (s : Stream) (h : Nat) :
    (chdstream_load_hunk s h).stream.track_frame = s.track_frame := by
  unfold chdstream_load_hunk; split_ifs <;> rfl

@[simp] theorem load_hunk_frames_per_hunk (s : Stream) (h : Nat) :
    (chdstream_load_hunk s h).stream.frames_per_hunk = s.frames_per_hunk := by
  unfold chdstream_load_hunk; split_ifs <;> rfl

@[simp] theorem load_hunk_chd (s : Stream) (h : Nat) :
    (chdstream_load_hunk s h).stream.chd = s.chd := by
  unfold chdstream_load_hunk; split_ifs <;> rfl

@[simp] theorem load_hunk_swab (s : Stream) (h : Nat) :
    (chdstream_load_hunk s h).stream.swab = s.swab := by
  unfold chdstream_load_hunk; split_ifs <;> rfl

theorem load_hunk_hit (s : Stream) (h : Nat) (hh : h = s.hunknum) :
    chdstream_load_hunk s h = ⟨true, s, 0⟩ := by
  unfold chdstream_load_hunk; rw [if_pos hh]

theorem load_hunk_miss (s : Stream) (h : Nat) (hne : h ≠ s.hunknum)
    (hok : s.chd.readOk h = true) :
    chdstream_load_hunk s h =
      ⟨true, { s with hunkmem := expectedMem s.chd s.swab h, hunknum := h }, 1⟩ := by
  simp [chdstream_load_hunk, expectedMem, hne, hok]

theorem load_hunk_fail (s : Stream) (h : Nat) (hne : h ≠ s.hunknum)
    (hok : s.chd.readOk h = false) :
    chdstream_load_hunk s h = ⟨false, s, 1⟩ := by
  simp [chdstream_load_hunk, hne, hok]

theorem size_t_clamp (te off : Nat) (h1 : off ≤ te) (h2 : te < UINT64_MOD) :
    (te + UINT64_MOD - off) % UINT64_MOD = te - off := by
  simp only [UINT64_MOD] at h2 ⊢; omega

@[simp] theorem hunkOf_set_offset (s : Stream) (x p : Nat) :
    hunkOf { s with offset := x } p = hunkOf s p := rfl

theorem chunkAmount_pos (s : Stream) (endPos : Nat) (hfs : 0 < s.frame_size)
    (hlt : s.offset < endPos) : 0 < chunkAmount s endPos := by
  have := Nat.mod_lt s.offset hfs
  unfold chunkAmount; split_ifs <;> omega

theorem chunkAmount_le (s : Stream) (endPos : Nat) :
    chunkAmount s endPos ≤ endPos - s.offset := by
  unfold chunkAmount; split_ifs <;> omega

theorem chunk_end_pregap (s : Stream) (hfs : 0 < s.frame_size)
    (halign : s.frame_size ∣ s.track_start) (hoff : s.offset < s.track_start) :
    s.offset + (s.frame_size - s.offset % s.frame_size) ≤ s.track_start := by
  obtain ⟨k, hk⟩ := halign
  have hdm := Nat.div_add_mod s.offset s.frame_size
  have hmlt := Nat.mod_lt s.offset hfs
  have hq : s.offset / s.frame_size < k := by
    rw [Nat.div_lt_iff_lt_mul hfs, Nat.mul_comm]; omega
  have hmul : s.frame_size * (s.offset / s.frame_size + 1) ≤ s.frame_size * k :=
    Nat.mul_le_mul le_rfl hq
  have hexp : s.frame_size * (s.offset / s.frame_size + 1)
      = s.frame_size * (s.offset / s.frame_size) + s.frame_size := by ring
  omega

theorem chunkAmount_pregap (s : Stream) (endPos : Nat) (hfs : 0 < s.frame_size)
    (halign : s.frame_size ∣ s.track_start) (hoff : s.offset < s.track_start)
    (_hend : s.track_start ≤ endPos) :
    s.offset + chunkAmount s endPos ≤ s.track_start := by
  have h := chunk_end_pregap s hfs halign hoff
  unfold chunkAmount; split_ifs <;> omega

theorem exists_suffix_trans {X out ch : List Nat}
    (h : ∃ r1, X = (out ++ ch) ++ r1) : ∃ rest, X = out ++ rest := by
  obtain ⟨r1, h⟩ := h
  exact ⟨ch ++ r1, by rw [h, List.append_assoc]⟩

theorem read_loop_extends (fuel : Nat) :
    ∀ (s : Stream) (endPos : Nat) (out : List Nat) (reads : Nat),
    ∃ rest, (read_loop s endPos out reads fuel).2.1 = out ++ rest := by
  induction fuel with
  | zero => exact fun s endPos out reads => ⟨[], by simp [read_loop]⟩
  | succ fuel ih =>
    intro s endPos out reads
    by_cases h1 : s.offset < endPos
    · by_cases h2 : s.offset < s.track_start
      · simp only [read_loop, if_pos h1, if_pos h2]
        exact exists_suffix_trans (ih _ _ _ _)
      · simp only [read_loop, if_pos h1, if_neg h2]
        cases hok : (chdstream_load_hunk s (hunkOf s s.offset)).ok
        · simp only [hok, Bool.false_eq_true, if_false]
          exact ⟨[], by simp⟩
        · simp only [hok, if_true]
          exact exists_suffix_trans (ih _ _ _ _)
    · exact ⟨[], by simp [read_loop, if_neg h1]⟩

theorem read_loop_pregap (fuel : Nat) :
    ∀ (s : Stream) (endPos : Nat) (out : List Nat) (reads : Nat),
    0 < s.frame_size → s.offset ≤ endPos → endPos ≤ s.track_start →
    endPos - s.offset ≤ fuel →
    read_loop s endPos out reads fuel =
      (false, out ++ List.replicate (endPos - s.offset) 0,
        { s with offset := endPos }, reads) := by
  induction fuel with
  | zero =>
    intro s endPos out reads hfs hle hts hfuel
    have he : endPos = s.offset := by omega
    subst he
    simp [read_loop, Nat.sub_self]
  | succ fuel ih =>
    intro s endPos out reads hfs hle hts hfuel
    by_cases h1 : s.offset < endPos
    · have h2 : s.offset < s.track_start := lt_of_lt_of_le h1 hts
      have hpos := chunkAmount_pos s endPos hfs h1
      have hle2 := chunkAmount_le s endPos
      simp only [read_loop, if_pos h1, if_pos h2]
      rw [ih { s with offset := s.offset + chunkAmount s endPos } endPos
        (out ++ List.replicate (chunkAmount s endPos) 0) reads hfs
        (by show s.offset + chunkAmount s endPos ≤ endPos; omega) hts
        (by show endPos - (s.offset + chunkAmount s endPos) ≤ fuel; omega)]
      have harith : chunkAmount s endPos +
          (endPos - (s.offset + chunkAmount s endPos)) = endPos - s.offset := by
        omega
      simp [← List.replicate_add, harith]
    · have he : endPos = s.offset := by omega
      subst he
      simp [read_loop, Nat.sub_self]

theorem read_loop_front_zeros (fuel : Nat) :
    ∀ (s : Stream) (endPos : Nat) (out : List Nat) (reads : Nat),
    0 < s.frame_size → s.frame_size ∣ s.track_start → s.offset ≤ s.track_start →
    s.track_start ≤ endPos → s.track_start - s.offset ≤ fuel →
    ∃ rest, (read_loop s endPos out reads fuel).2.1 =
      out ++ List.replicate (s.track_start - s.offset) 0 ++ rest := by
  induction fuel with
  | zero =>
    intro s endPos out reads hfs halign hoff hend hfuel
    have he : s.track_start - s.offset = 0 := by omega
    rw [he]
    simpa using read_loop_extends 0 s endPos out reads
  | succ fuel ih =>
    intro s endPos out reads hfs halign hoff hend hfuel
    by_cases h0 : s.offset < s.track_start
    · have h1 : s.offset < endPos := lt_of_lt_of_le h0 hend
      have hpos := chunkAmount_pos s endPos hfs h1
      have hcp := chunkAmount_pregap s endPos hfs halign h0 hend
      simp only [read_loop, if_pos h1, if_pos h0]
      obtain ⟨rest, hrest⟩ := ih { s with offset := s.offset + chunkAmount s endPos }
        endPos (out ++ List.replicate (chunkAmount s endPos) 0) reads hfs halign
        (by show s.offset + chunkAmount s endPos ≤ s.track_start; omega) hend
        (by show s.track_start - (s.offset + chunkAmount s endPos) ≤ fuel; omega)
      refine ⟨rest, ?_⟩
      rw [hrest]
      have harith : chunkAmount s endPos +
          (s.track_start - (s.offset + chunkAmount s endPos)) =
            s.track_start - s.offset := by omega
      simp [← List.replicate_add, harith, List.append_assoc]
    · have he : s.track_start - s.offset = 0 := by omega
      rw [he]
      simpa using read_loop_extends (fuel + 1) s endPos out reads

theorem read_loop_success (fuel : Nat) :
    ∀ (s : Stream) (endPos : Nat) (out : List Nat) (reads : Nat),
    0 < s.frame_size → s.offset ≤ endPos → endPos - s.offset ≤ fuel →
    (∀ p, p < endPos → s.offset ≤ p → s.track_start ≤ p →
      s.chd.readOk (hunkOf s p) = true) →
    ∃ out1 s1 r1, read_loop s endPos out reads fuel = (false, out ++ out1, s1, r1) ∧
      out1.length = endPos - s.offset ∧ s1.offset = endPos := by
  induction fuel with
  | zero =>
    intro s endPos out reads hfs hle hfuel hld
    have he : endPos = s.offset := by omega
    subst he
    exact ⟨[], s, reads, by simp [read_loop], by simp, rfl⟩
  | succ fuel ih =>
    intro s endPos out reads hfs hle hfuel hld
    by_cases h1 : s.offset < endPos
    · have hpos := chunkAmount_pos s endPos hfs h1
      have hle2 := chunkAmount_le s endPos
      by_cases h2 : s.offset < s.track_start
      · simp only [read_loop, if_pos h1, if_pos h2]
        obtain ⟨out1, s1, r1, heq, hlen, hoff⟩ := ih
          { s with offset := s.offset + chunkAmount s endPos } endPos
          (out ++ List.replicate (chunkAmount s endPos) 0) reads hfs
          (by show s.offset + chunkAmount s endPos ≤ endPos; omega)
          (by show endPos - (s.offset + chunkAmount s endPos) ≤ fuel; omega)
          (by
            intro p hp1 hp2 hp3
            have hp2' : s.offset ≤ p := by
              have : s.offset + chunkAmount s endPos ≤ p := hp2
              omega
            exact hld p hp1 hp2' hp3)
        refine ⟨List.replicate (chunkAmount s endPos) 0 ++ out1, s1, r1, ?_, ?_, hoff⟩
        · rw [heq, List.append_assoc]
        · have : out1.length = endPos - (s.offset + chunkAmount s endPos) := hlen
          simp only [List.length_append, List.length_replicate]
          omega
      · have hts : s.track_start ≤ s.offset := le_of_not_lt h2
        have hokc : s.chd.readOk (hunkOf s s.offset) = true :=
          hld s.offset h1 le_rfl hts
        have hok1 : (chdstream_load_hunk s (hunkOf s s.offset)).ok = true := by
          by_cases hhit : hunkOf s s.offset = s.hunknum
          · rw [load_hunk_hit s _ hhit]
          · rw [load_hunk_miss s _ hhit hokc]
        simp only [read_loop, if_pos h1, if_neg h2, hok1, if_true]
        obtain ⟨out1, s1, r1, heq, hlen, hoff⟩ := ih
          { (chdstream_load_hunk s (hunkOf s s.offset)).stream with
            offset := (chdstream_load_hunk s (hunkOf s s.offset)).stream.offset +
              chunkAmount s endPos } endPos
          (out ++ (List.range (chunkAmount s endPos)).map
            (fun j => (chdstream_load_hunk s (hunkOf s s.offset)).stream.hunkmem
              (s.offset % s.frame_size + hunkByteOf s s.offset +
                (chdstream_load_hunk s (hunkOf s s.offset)).stream.frame_offset + j)))
          (reads + (chdstream_load_hunk s (hunkOf s s.offset)).chdReads)
          (by simpa using hfs)
          (by show (chdstream_load_hunk s (hunkOf s s.offset)).stream.offset +
                chunkAmount s endPos ≤ endPos
              simp only [load_hunk_offset]
              omega)
          (by show endPos - ((chdstream_load_hunk s (hunkOf s s.offset)).stream.offset +
                chunkAmount s endPos) ≤ fuel
              simp only [load_hunk_offset]
              omega)
          (by
            intro p hp1 hp2 hp3
            have hp2' : s.offset ≤ p := by
              simp only [load_hunk_offset] at hp2
              omega
            have hp3' : s.track_start ≤ p := by
              simpa using hp3
            have := hld p hp1 hp2' hp3'
            simpa [hunkOf, chdFrame] using this)
        refine ⟨(List.range (chunkAmount s endPos)).map
          (fun j => (chdstream_load_hunk s (hunkOf s s.offset)).stream.hunkmem
            (s.offset % s.frame_size + hunkByteOf s s.offset +
              (chdstream_load_hunk s (hunkOf s s.offset)).stream.frame_offset + j)) ++
          out1, s1, r1, ?_, ?_, hoff⟩
        · rw [heq, List.append_assoc]
        · have hlen' : out1.length =
              endPos - ((chdstream_load_hunk s (hunkOf s s.offset)).stream.offset +
                chunkAmount s endPos) := hlen
          simp only [load_hunk_offset] at hlen'
          simp only [List.length_append, List.length_map, List.length_range]
          omega
    · have he : endPos = s.offset := by omega
      subst he
      exact ⟨[], s, reads, by simp [read_loop], by simp, rfl⟩

theorem read_loop_cached (fuel : Nat) :
    ∀ (s : Stream) (endPos : Nat) (out : List Nat) (reads : Nat),
    0 < s.frame_size → s.offset ≤ endPos → endPos - s.offset ≤ fuel →
    (∀ p, p < endPos → s.offset ≤ p → s.track_start ≤ p → hunkOf s p = s.hunknum) →
    ∃ out1, read_loop s endPos out reads fuel =
      (false, out1, { s with offset := endPos }, reads) := by
  induction fuel with
  | zero =>
    intro s endPos out reads hfs hle hfuel _hsh
    have he : endPos = s.offset := by omega
    subst he
    exact ⟨out, by simp [read_loop]⟩
  | succ fuel ih =>
    intro s endPos out reads hfs hle hfuel hsh
    by_cases h1 : s.offset < endPos
    · have hpos := chunkAmount_pos s endPos hfs h1
      have hle2 := chunkAmount_le s endPos
      by_cases h2 : s.offset < s.track_start
      · simp only [read_loop, if_pos h1, if_pos h2]
        obtain ⟨out1, heq⟩ := ih { s with offset := s.offset + chunkAmount s endPos }
          endPos (out ++ List.replicate (chunkAmount s endPos) 0) reads hfs
          (by show s.offset + chunkAmount s endPos ≤ endPos; omega)
          (by show endPos - (s.offset + chunkAmount s endPos) ≤ fuel; omega)
          (by
            intro p hp1 hp2 hp3
            have hp2' : s.offset ≤ p := by
              have : s.offset + chunkAmount s endPos ≤ p := hp2
              omega
            exact hsh p hp1 hp2' hp3)
        refine ⟨out1, ?_⟩
        rw [heq]
      · have hts : s.track_start ≤ s.offset := le_of_not_lt h2
        have hhit : hunkOf s s.offset = s.hunknum := hsh s.offset h1 le_rfl hts
        simp only [read_loop, if_pos h1, if_neg h2, load_hunk_hit s _ hhit]
        obtain ⟨out1, heq⟩ := ih { s with offset := s.offset + chunkAmount s endPos }
          endPos
          (out ++ (List.range (chunkAmount s endPos)).map
            (fun j => s.hunkmem (s.offset % s.frame_size + hunkByteOf s s.offset +
              s.frame_offset + j)))
          (reads + 0) hfs
          (by show s.offset + chunkAmount s endPos ≤ endPos; omega)
          (by show endPos - (s.offset + chunkAmount s endPos) ≤ fuel; omega)
          (by
            intro p hp1 hp2 hp3
            have hp2' : s.offset ≤ p := by
              have : s.offset + chunkAmount s endPos ≤ p := hp2
              omega
            exact hsh p hp1 hp2' hp3)
        refine ⟨out1, ?_⟩
        rw [heq]
        simp
    · have he : endPos = s.offset := by omega
      subst he
      exact ⟨out, by simp [read_loop]⟩

theorem read_loop_one_load (fuel : Nat) (s : Stream) (endPos : Nat)
    (out : List Nat) (reads h : Nat)
    (hfs : 0 < s.frame_size) (hts : s.track_start ≤ s.offset)
    (h1 : s.offset < endPos) (hfuel : endPos - s.offset ≤ fuel)
    (hsh : ∀ p, p < endPos → s.offset ≤ p → hunkOf s p = h)
    (hok : s.chd.readOk h = true) (hmiss : s.hunknum ≠ h) :
    ∃ out1, read_loop s endPos out reads fuel =
      (false, out1,
        { s with
          hunkmem :=
            if s.swab then swab16 s.chd.header.hunkbytes (s.chd.hunkData h)
            else s.chd.hunkData h
          hunknum := h
          offset := endPos }, reads + 1) := by
  cases fuel with
  | zero => omega
  | succ fuel =>
    have h2 : ¬ s.offset < s.track_start := not_lt.mpr hts
    have hh : hunkOf s s.offset = h := hsh s.offset h1 le_rfl
    have hpos := chunkAmount_pos s endPos hfs h1
    have hle2 := chunkAmount_le s endPos
    have hload := load_hunk_miss s h hmiss.symm hok
    simp only [read_loop, if_pos h1, if_neg h2, hh, hload, if_true]
    obtain ⟨out1, heq⟩ := read_loop_cached fuel
      { ({ s with hunkmem := expectedMem s.chd s.swab h, hunknum := h } : Stream) with offset := ({ s with hunkmem := expectedMem s.chd s.swab h, hunknum := h } : Stream).offset + chunkAmount s endPos }
      endPos
      (out ++ (List.range (chunkAmount s endPos)).map
        (fun j => ({ s with hunkmem := expectedMem s.chd s.swab h, hunknum := h } : Stream).hunkmem
          (s.offset % s.frame_size + hunkByteOf s s.offset +
            ({ s with hunkmem := expectedMem s.chd s.swab h, hunknum := h } : Stream).frame_offset + j)))
      (reads + 1) hfs
      (by show s.offset + chunkAmount s endPos ≤ endPos; omega)
      (by show endPos - (s.offset + chunkAmount s endPos) ≤ fuel; omega)
      (by
        intro p hp1 hp2 hp3
        have hp2' : s.offset ≤ p := by
          have : s.offset + chunkAmount s endPos ≤ p := hp2
          omega
        exact hsh p hp1 hp2')
    refine ⟨out1, ?_⟩
    rw [heq]
    rfl

theorem min_clamp (te off n : Nat) :
    (if te - off < n then te - off else n) = min n (te - off) := by
  rw [Nat.min_def]; split_ifs <;> omega

theorem chdstream_read_spec (s : Stream) (bytes0 : Nat)
    (hfs : 0 < s.frame_size) (hoff : s.offset ≤ s.track_end)
    (hte : s.track_end < UINT64_MOD)
    (hld : ∀ p, p < s.offset + min bytes0 (s.track_end - s.offset) →
      s.offset ≤ p → s.track_start ≤ p → s.chd.readOk (hunkOf s p) = true) :
    (chdstream_read s bytes0).aborted = false ∧
    (chdstream_read s bytes0).ret = (min bytes0 (s.track_end - s.offset) : Nat) ∧
    (chdstream_read s bytes0).out.length = min bytes0 (s.track_end - s.offset) ∧
    (chdstream_read s bytes0).stream.offset =
      s.offset + min bytes0 (s.track_end - s.offset) := by
  have havail := size_t_clamp s.track_end s.offset hoff hte
  obtain ⟨out1, s1, r1, heq, hlen, hoff1⟩ :=
    read_loop_success (min bytes0 (s.track_end - s.offset)) s
      (s.offset + min bytes0 (s.track_end - s.offset)) [] 0 hfs
      (by omega) (by omega) hld
  simp only [chdstream_read]
  rw [havail, min_clamp, heq]
  simp only [List.nil_append] at heq ⊢
  simp only [Bool.false_eq_true, if_false]
  refine ⟨trivial, trivial, ?_, hoff1⟩
  omega

theorem chdstream_read_in_pregap (s : Stream) (n : Nat)
    (hfs : 0 < s.frame_size) (hts : s.track_start ≤ s.track_end)
    (hte : s.track_end < UINT64_MOD) (hn : s.offset + n ≤ s.track_start) :
    chdstream_read s n =
      ⟨false, (n : Int), List.replicate n 0, { s with offset := s.offset + n },
        0⟩ := by
  have hoff : s.offset ≤ s.track_end := by omega
  have havail := size_t_clamp s.track_end s.offset hoff hte
  have hminn : min n (s.track_end - s.offset) = n := by omega
  have heq := read_loop_pregap n s (s.offset + n) [] 0 hfs (by omega)
    (by omega) (by omega)
  simp only [chdstream_read]
  rw [havail, min_clamp, hminn, heq]
  simp

theorem chdstream_read_front_zeros (s : Stream) (n : Nat)
    (hfs : 0 < s.frame_size) (halign : s.frame_size ∣ s.track_start)
    (hoff0 : s.offset ≤ s.track_start) (hts : s.track_start ≤ s.track_end)
    (hte : s.track_end < UINT64_MOD)
    (hn : s.track_start ≤ s.offset + min n (s.track_end - s.offset)) :
    ∃ rest, (chdstream_read s n).out =
      List.replicate (s.track_start - s.offset) 0 ++ rest := by
  have hoff : s.offset ≤ s.track_end := le_trans hoff0 hts
  have havail := size_t_clamp s.track_end s.offset hoff hte
  obtain ⟨rest, hrest⟩ :=
    read_loop_front_zeros (min n (s.track_end - s.offset)) s
      (s.offset + min n (s.track_end - s.offset)) [] 0 hfs halign hoff0
      hn (by omega)
  refine ⟨rest, ?_⟩
  simp only [chdstream_read]
  rw [havail, min_clamp]
  by_cases hab : (read_loop s (s.offset + min n (s.track_end - s.offset)) [] 0
      (min n (s.track_end - s.offset))).1
  · rw [if_pos hab]
    simpa using hrest
  · rw [if_neg hab]
    simpa using hrest

theorem chdstream_read_one_load (s : Stream) (n h : Nat)
    (hfs : 0 < s.frame_size) (hts : s.track_start ≤ s.offset)
    (hn1 : 0 < n) (hle : s.offset + n ≤ s.track_end)
    (hte : s.track_end < UINT64_MOD)
    (hsh : ∀ p, p < s.offset + n → s.offset ≤ p → hunkOf s p = h)
    (hok : s.chd.readOk h = true) (hmiss : s.hunknum ≠ h) :
    (chdstream_read s n).chdReads = 1 ∧
    (chdstream_read s n).stream =
      { s with
        hunkmem :=
          if s.swab then swab16 s.chd.header.hunkbytes (s.chd.hunkData h)
          else s.chd.hunkData h
        hunknum := h
        offset := s.offset + n } := by
  have hoff : s.offset ≤ s.track_end := by omega
  have havail := size_t_clamp s.track_end s.offset hoff hte
  have hminn : min n (s.track_end - s.offset) = n := by omega
  obtain ⟨out1, heq⟩ := read_loop_one_load n s (s.offset + n) [] 0 h hfs hts
    (by omega) (by omega) hsh hok hmiss
  simp only [chdstream_read]
  rw [havail, min_clamp, hminn, heq]
  simp

theorem chdstream_read_cached (s : Stream) (n : Nat)
    (hfs : 0 < s.frame_size) (hoff : s.offset ≤ s.track_end)
    (hte : s.track_end < UINT64_MOD)
    (hsh : ∀ p, p < s.offset + min n (s.track_end - s.offset) →
      s.offset ≤ p → s.track_start ≤ p → hunkOf s p = s.hunknum) :
    (chdstream_read s n).chdReads = 0 := by
  have havail := size_t_clamp s.track_end s.offset hoff hte
  obtain ⟨out1, heq⟩ := read_loop_cached (min n (s.track_end - s.offset)) s
    (s.offset + min n (s.track_end - s.offset)) [] 0 hfs (by omega) (by omega)
    hsh
  simp only [chdstream_read]
  rw [havail, min_clamp, heq]
  simp

theorem find_track_number_chdA_ne (i : Nat) (hi : i ≠ 1) :
    chdstream_find_track_number chdA i = (false, Metadata.zero) := by
  show find_track_number_aux chdA i 0 0 2 = (false, Metadata.zero)
  have h0 : chdstream_get_meta chdA 0 = (true, mA1) := by decide
  have h1 : chdstream_get_meta chdA 1 = (false, Metadata.zero) := by decide
  have hne : ¬ i = mA1.track := by simpa [mA1] using hi
  simp only [find_track_number_aux, h0, h1, if_neg hne]

theorem find_track_number_chdA_one :
    chdstream_find_track_number chdA 1 = (true, { mA1 with frame_offset := 0 }) := by
  decide

theorem primary_no_data_diverges :
    ∀ (fuel i : Nat), 1 ≤ i →
      find_special_track_aux chdA CHDSTREAM_TRACK_PRIMARY i 0 0 fuel = none := by
  intro fuel
  induction fuel with
  | zero => intro i _; rfl
  | succ fuel ih =>
    intro i hi
    by_cases hone : i = 1
    · subst hone
      simp only [find_special_track_aux, find_track_number_chdA_one,
        CHDSTREAM_TRACK_PRIMARY, CHDSTREAM_TRACK_LAST, CHDSTREAM_TRACK_FIRST_DATA,
        mA1]
      norm_num
      exact ih 2 (by omega)
    · simp only [find_special_track_aux, find_track_number_chdA_ne i hone,
        CHDSTREAM_TRACK_PRIMARY, CHDSTREAM_TRACK_LAST, CHDSTREAM_TRACK_FIRST_DATA,
        Metadata.zero]
      norm_num
      exact ih (i + 1) (by omega)

/-! ### Claim theorems -/

/-- C1: for every stream in a reachable state (`offset ≤ track_end`, positive
frame size, `size_t`-representable track end), provided every hunk load the
requested range requires succeeds, `chdstream_read` does not abort, returns
exactly `min(requested, track_end - offset)` — never more than requested —
and afterwards `chdstream_tell` equals the previous tell plus the returned
count. -/
theorem chdstream_read_returns_min (s : Stream) (bytes : Nat)
    (hfs : 0 < s.frame_size) (hoff : s.offset ≤ s.track_end)
    (hte : s.track_end < UINT64_MOD)
    (hld : ∀ p, p < s.offset + min bytes (s.track_end - s.offset) →
      s.offset ≤ p → s.track_start ≤ p → s.chd.readOk (hunkOf s p) = true) :
    (chdstream_read s bytes).aborted = false ∧
    (chdstream_read s bytes).ret = (min bytes (s.track_end - s.offset) : Nat) ∧
    (chdstream_read s bytes).ret ≤ (bytes : Int) ∧
    chdstream_tell (chdstream_read s bytes).stream =
      chdstream_tell s + min bytes (s.track_end - s.offset) := by
  obtain ⟨h1, h2, _h3, h4⟩ := chdstream_read_spec s bytes hfs hoff hte hld
  refine ⟨h1, h2, ?_, ?_⟩
  · rw [h2]
    exact_mod_cast Nat.min_le_left _ _
  · unfold chdstream_tell
    rw [h4]

theorem chdstream_read_returns_min_witness :
    (chdstream_read sS 5).aborted = false ∧
    (chdstream_read sS 5).ret = (min 5 (sS.track_end - sS.offset) : Nat) ∧
    (chdstream_read sS 5).ret ≤ (5 : Int) ∧
    chdstream_tell (chdstream_read sS 5).stream =
      chdstream_tell sS + min 5 (sS.track_end - sS.offset) :=
  chdstream_read_returns_min sS 5 (by decide) (by decide) (by decide)
    (by decide)

/-- C2: for every successfully opened track, the pregap contributes
addressable bytes exactly when its reported type equals the track's own type
(otherwise it contributes zero length): `track_start = effective_pregap *
frame_size`, `track_end = track_start + frames * frame_size`; every byte a
read delivers from an offset below `track_start` is zero, and a read from
offset 0 across the pregap delivers exactly `track_start` zero bytes first. -/
theorem chdstream_open_pregap_geometry (chd : ChdFile) (track : Int)
    (fuel : Nat) (meta : Metadata) (s : Stream)
    (hfind : chdstream_find_track chd track fuel = some (true, meta))
    (hopen : chdstream_open chd track fuel = some s)
    (hu : 0 < chd.header.unitbytes) (hte : s.track_end < UINT64_MOD) :
    s.track_start =
      (if meta.type = meta.pgtype then meta.pregap else 0) * s.frame_size ∧
    s.track_end = s.track_start + meta.frames * s.frame_size ∧
    (∀ n, s.offset + n ≤ s.track_start →
      (chdstream_read s n).aborted = false ∧
      (chdstream_read s n).out = List.replicate n 0) ∧
    (∀ n, s.track_start ≤ s.offset + min n (s.track_end - s.offset) →
      ∃ rest, (chdstream_read s n).out =
        List.replicate s.track_start 0 ++ rest) := by
  unfold chdstream_open at hopen
  rw [hfind] at hopen
  simp only [Option.some.injEq] at hopen
  have hfs_eq : s.frame_size =
      (if meta.type = "MODE1_RAW" then SECTOR_SIZE
       else if meta.type = "MODE2_RAW" then SECTOR_SIZE
       else if meta.type = "AUDIO" then SECTOR_SIZE
       else chd.header.unitbytes) := by rw [← hopen]
  have hts_eq : s.track_start =
      (if meta.type = meta.pgtype then meta.pregap else 0) *
      (if meta.type = "MODE1_RAW" then SECTOR_SIZE
       else if meta.type = "MODE2_RAW" then SECTOR_SIZE
       else if meta.type = "AUDIO" then SECTOR_SIZE
       else chd.header.unitbytes) := by rw [← hopen]
  have hte_eq : s.track_end =
      (if meta.type = meta.pgtype then meta.pregap else 0) *
      (if meta.type = "MODE1_RAW" then SECTOR_SIZE
       else if meta.type = "MODE2_RAW" then SECTOR_SIZE
       else if meta.type = "AUDIO" then SECTOR_SIZE
       else chd.header.unitbytes) +
      meta.frames *
      (if meta.type = "MODE1_RAW" then SECTOR_SIZE
       else if meta.type = "MODE2_RAW" then SECTOR_SIZE
       else if meta.type = "AUDIO" then SECTOR_SIZE
       else chd.header.unitbytes) := by rw [← hopen]
  have hoff0 : s.offset = 0 := by rw [← hopen]
  have hfs : 0 < s.frame_size := by
    rw [hfs_eq]
    split_ifs <;> simp [SECTOR_SIZE, hu]
  have halign : s.frame_size ∣ s.track_start :=
    ⟨if meta.type = meta.pgtype then meta.pregap else 0, by
      rw [hts_eq, hfs_eq, Nat.mul_comm]⟩
  have hts_le : s.track_start ≤ s.track_end := by
    rw [hts_eq, hte_eq]
    omega
  refine ⟨by rw [hfs_eq]; exact hts_eq, by rw [hfs_eq, hts_eq]; exact hte_eq, ?_, ?_⟩
  · intro n hn
    have heq := chdstream_read_in_pregap s n hfs hts_le hte hn
    exact ⟨by rw [heq], by rw [heq]⟩
  · intro n hn
    obtain ⟨rest, hr⟩ := chdstream_read_front_zeros s n hfs halign
      (by omega) hts_le hte hn
    rw [hoff0, Nat.sub_zero] at hr
    exact ⟨rest, hr⟩

theorem chdstream_open_pregap_geometry_witness :
    sScn.track_start =
      (if metaScn.type = metaScn.pgtype then metaScn.pregap else 0) *
        sScn.frame_size ∧
    sScn.track_end = sScn.track_start + metaScn.frames * sScn.frame_size ∧
    (∀ n, sScn.offset + n ≤ sScn.track_start →
      (chdstream_read sScn n).aborted = false ∧
      (chdstream_read sScn n).out = List.replicate n 0) ∧
    (∀ n, sScn.track_start ≤ sScn.offset + min n (sScn.track_end - sScn.offset) →
      ∃ rest, (chdstream_read sScn n).out =
        List.replicate sScn.track_start 0 ++ rest) :=
  chdstream_open_pregap_geometry chdScn 2 1 metaScn sScn (by decide) (by rfl)
    (by decide) (by decide)

/-- C3: a hunk-load failure inside `chdstream_read` does not produce an
explicit error result: the source calls `abort()` — process termination,
modelled by the `aborted` flag — with the unreachable `return -1` after it;
bytes already copied in earlier chunks of the same call (here the 4 pregap
zero bytes) were already delivered to the caller's buffer.  This run is the
concrete evaluation: reading 8 bytes of `sF` (whose every `chd_read` fails)
delivers 4 zero bytes, then hits the failing load and aborts. -/
theorem chdstream_read_abort_on_failure :
    (chdstream_read sF 8).aborted = true ∧
    (chdstream_read sF 8).out = List.replicate 4 0 ∧
    (chdstream_read sF 8).chdReads = 1 := by decide

/-- C4: the single-byte read requests `sizeof(c) != sizeof(c)` = 0 bytes, so
for every stream it consumes nothing, leaves the stream unchanged, and
returns byte 0 — never `EOF` — even though zero bytes were produced.  This
contradicts the claim that it reads exactly one byte and reports
end-of-stream exactly when zero bytes were produced. -/
theorem chdstream_getc_never_reads (s : Stream) :
    chdstream_getc s = (0, s) ∧ (chdstream_getc s).1 ≠ EOF := by
  refine ⟨getc_eq s, ?_⟩
  rw [getc_eq]
  show (0 : Int) ≠ EOF
  decide

theorem chdstream_getc_never_reads_witness :
    chdstream_getc sS = (0, sS) ∧ (chdstream_getc sS).1 ≠ EOF :=
  chdstream_getc_never_reads sS

/-- C5: resolving the symbolic LAST selector on a three-track container does
not return the final record: the failing `chdstream_find_track_number` call
that detects exhaustion has already zeroed its out-parameter (the `memset`
in `chdstream_get_meta`), so LAST hands back the all-zero metadata record
(track number 0, frame count 0, empty type) instead of track 3 with its
accumulated frame offset 156. -/
theorem chdstream_last_selector_returns_zeroed :
    chdstream_find_special_track chd3 CHDSTREAM_TRACK_LAST 5 =
      some (true, Metadata.zero) ∧
    Metadata.zero.track = 0 ∧ Metadata.zero.frames = 0 := by decide

/-- C6: on a container with no non-AUDIO record, FIRST_DATA does not report
not_found — at exhaustion the zeroed iterator's empty type differs from
"AUDIO", so it returns success with the all-zero record — and PRIMARY never
terminates: for every fuel bound the loop is still running (the source loop
has no failure exit at all). -/
theorem chdstream_no_data_track_misbehaves :
    (∀ fuel, chdstream_find_special_track chdA CHDSTREAM_TRACK_PRIMARY fuel =
      none) ∧
    chdstream_find_special_track chdA CHDSTREAM_TRACK_FIRST_DATA 2 =
      some (true, Metadata.zero) := by
  constructor
  · intro fuel
    exact primary_no_data_diverges fuel 1 le_rfl
  · decide

/-- C7: `chdstream_seek` computes the candidate as `offset` (SEEK_SET),
`current_offset + offset` (SEEK_CUR) or `track_end + offset` (SEEK_END);
an unrecognized origin or a negative candidate returns -1 with the cursor
unchanged, and otherwise the candidate, clamped to `track_end`, becomes the
new cursor with result 0 — exactly the behaviour `seekSpec` words from the
specification; in particular `seek(0, SEEK_END)` lands the cursor on
`track_end`, and `seek(-1, SEEK_CUR)` at offset 0 fails leaving the cursor
unchanged. -/
theorem chdstream_seek_matches_the_spec (s : Stream) (offset whence : Int) :
    chdstream_seek s offset whence = seekSpec s offset whence ∧
    (chdstream_seek s 0 SEEK_END).2.offset = s.track_end ∧
    chdstream_seek { s with offset := 0 } (-1) SEEK_CUR =
      (-1, { s with offset := 0 }) := by
  refine ⟨?_, ?_, ?_⟩
  · unfold chdstream_seek seekSpec
    dsimp only
    cases hif : (if whence = SEEK_SET then some offset
        else if whence = SEEK_CUR then some ((s.offset : Int) + offset)
        else if whence = SEEK_END then some ((s.track_end : Int) + offset)
        else none) with
    | none => rfl
    | some n =>
      dsimp only
      split_ifs with hneg hclamp
      · rfl
      · have hm : min n.toNat s.track_end = s.track_end := by omega
        rw [hm]
      · have hm : min n.toNat s.track_end = n.toNat := by omega
        rw [hm]
  · have h0 : ¬ ((s.track_end : Int) < 0) := not_lt.mpr (Int.natCast_nonneg _)
    simp [chdstream_seek, SEEK_SET, SEEK_CUR, SEEK_END, h0]
  · simp [chdstream_seek, SEEK_SET, SEEK_CUR]

theorem chdstream_seek_matches_the_spec_witness :
    chdstream_seek sS 3 SEEK_SET = seekSpec sS 3 SEEK_SET ∧
    (chdstream_seek sS 0 SEEK_END).2.offset = sS.track_end ∧
    chdstream_seek { sS with offset := 0 } (-1) SEEK_CUR =
      (-1, { sS with offset := 0 }) :=
  chdstream_seek_matches_the_spec sS 3 SEEK_SET

/-- C8: the hunk cache: a load of the cached hunk number performs no
`chd_read` call and succeeds with the stream untouched; a miss performs one
`chd_read` and on success installs the decompressed hunk (byte-swapped when
the audio flag is set, before anything is copied out) and commits the hunk
number; a failed load performs its one failed `chd_read` and leaves the
stream — in particular the cached hunk number — unchanged, propagating the
error.  With the swab flag, the two bytes of every 16-bit word of the
freshly loaded hunk are exchanged exactly once.  Consequently two
consecutive reads lying in one physical hunk trigger exactly one underlying
decompression call: the first read performs it, the second is served from
cache. -/
theorem chdstream_load_hunk_cache_behaviour :
    (∀ (s : Stream) (h : Nat), h = s.hunknum →
      chdstream_load_hunk s h = ⟨true, s, 0⟩) ∧
    (∀ (s : Stream) (h : Nat), h ≠ s.hunknum → s.chd.readOk h = true →
      chdstream_load_hunk s h =
        ⟨true, { s with hunkmem := expectedMem s.chd s.swab h, hunknum := h },
          1⟩) ∧
    (∀ (s : Stream) (h : Nat), h ≠ s.hunknum → s.chd.readOk h = false →
      chdstream_load_hunk s h = ⟨false, s, 1⟩) ∧
    (∀ (s : Stream) (h w : Nat), s.swab = true →
      2 * w + 1 < s.chd.header.hunkbytes →
      expectedMem s.chd s.swab h (2 * w) = s.chd.hunkData h (2 * w + 1) ∧
      expectedMem s.chd s.swab h (2 * w + 1) = s.chd.hunkData h (2 * w)) ∧
    (∀ (s : Stream) (n1 n2 h : Nat), 0 < s.frame_size →
      s.track_start ≤ s.offset → 0 < n1 → s.offset + n1 + n2 ≤ s.track_end →
      s.track_end < UINT64_MOD →
      (∀ p, p < s.offset + n1 + n2 → s.offset ≤ p → hunkOf s p = h) →
      s.chd.readOk h = true → s.hunknum ≠ h →
      (chdstream_read s n1).chdReads = 1 ∧
      (chdstream_read (chdstream_read s n1).stream n2).chdReads = 0) := by
  refine ⟨load_hunk_hit, load_hunk_miss, load_hunk_fail, ?_, ?_⟩
  · intro s h w hsw hb
    unfold expectedMem
    rw [hsw]
    simp only [if_true]
    unfold swab16
    constructor
    · rw [if_pos (by omega)]
      congr 1
      omega
    · rw [if_pos (by omega)]
      congr 1
      omega
  · intro s n1 n2 h hfs hts hn1 hle hte hsh hok hmiss
    obtain ⟨hc1, hst⟩ := chdstream_read_one_load s n1 h hfs hts hn1 (by omega)
      hte (fun p hp1 hp2 => hsh p (by omega) hp2) hok hmiss
    refine ⟨hc1, ?_⟩
    rw [hst]
    apply chdstream_read_cached
    · exact hfs
    · show s.offset + n1 ≤ s.track_end
      omega
    · exact hte
    · intro p hp1 hp2 _hp3
      have hp1' : p < s.offset + n1 +
          min n2 (s.track_end - (s.offset + n1)) := hp1
      have hp2' : s.offset + n1 ≤ p := hp2
      have hmin := Nat.min_le_left n2 (s.track_end - (s.offset + n1))
      show hunkOf s p = h
      exact hsh p (by omega) (by omega)

theorem chdstream_load_hunk_cache_behaviour_witness :
    (chdstream_read sS 4).chdReads = 1 ∧
    (chdstream_read (chdstream_read sS 4).stream 4).chdReads = 0 :=
  chdstream_load_hunk_cache_behaviour.2.2.2.2 sS 4 4 0 (by decide) (by decide)
    (by decide) (by decide) (by decide) (by decide) (by decide) (by decide)

/-- C9 counterexample: the bounded byte slurp's loop runs while
`offset < len`, not `offset < len - 1`: with `len = 1` it stores one data
byte obtained from a single-byte read — where the claim permits at most
`len - 1 = 0` data bytes — and, no room remaining, writes no null
terminator. -/
theorem chdstream_gets_len_counterexample :
    (chdstream_gets sS 1).data.length = 1 ∧
    ¬ (chdstream_gets sS 1).data.length ≤ 1 - 1 ∧
    (chdstream_gets sS 1).terminated = false := by decide

theorem gets_aux_run (fuel : Nat) :
    ∀ (s : Stream) (len offset : Nat) (buf : List Nat),
    len = offset + fuel →
    gets_aux s len offset buf fuel = (buf ++ List.replicate fuel 0, len, s) := by
  induction fuel with
  | zero =>
    intro s len offset buf hlen
    subst hlen
    simp [gets_aux]
  | succ fuel ih =>
    intro s len offset buf hlen
    have hlt : offset < len := by omega
    simp only [gets_aux, if_pos hlt, getc_eq]
    rw [if_neg (by decide : ¬ (0 : Int) = EOF)]
    rw [ih s len (offset + 1) (buf ++ [(0 : Int).toNat]) (by omega)]
    simp [List.replicate_succ]

/-- C9 (amended): the bounded byte slurp performs single-byte reads until
`len` bytes have been consumed or end-of-stream, storing each result in
order, and writes the null terminator only when fewer than `len` bytes were
stored; since the source's single-byte read always yields byte 0 and never
reports end-of-stream, the slurp stores exactly `len` zero bytes, leaves
the stream unchanged, and never terminates the buffer. -/
theorem chdstream_gets_amended (s : Stream) (len : Nat) :
    chdstream_gets s len = ⟨List.replicate len 0, false, s⟩ := by
  unfold chdstream_gets
  rw [gets_aux_run len s len 0 [] (by omega)]
  simp

theorem chdstream_gets_amended_witness :
    chdstream_gets sS 3 = ⟨List.replicate 3 0, false, sS⟩ :=
  chdstream_gets_amended sS 3

/-- C10: for a stream built by `chdstream_open` from a header with a
positive native unit size no larger than the hunk size and at least the
frame size, all the unguarded divisors (`frame_size` in the read loop's
`%` and `/`, `frames_per_hunk` in the hunk split, `unitbytes` in open's
`hunkbytes / unitbytes`) are nonzero, and every byte index the read loop's
`memcpy` touches in the hunk buffer — `off % frame_size + hunk_offset +
frame_offset + j` for `j` below the chunk bound — lies below
`hunkbytes`. -/
theorem chdstream_open_read_index_safety (chd : ChdFile) (track : Int)
    (fuel : Nat) (s : Stream)
    (hopen : chdstream_open chd track fuel = some s)
    (hu : 0 < chd.header.unitbytes)
    (hhb : chd.header.unitbytes ≤ chd.header.hunkbytes)
    (hfsu : s.frame_size ≤ chd.header.unitbytes) :
    0 < s.frame_size ∧ 0 < s.frames_per_hunk ∧ chd.header.unitbytes ≠ 0 ∧
    ∀ off j, j < s.frame_size - off % s.frame_size →
      off % s.frame_size + hunkByteOf s off + s.frame_offset + j <
        s.chd.header.hunkbytes := by
  unfold chdstream_open at hopen
  cases hft : chdstream_find_track chd track fuel with
  | none =>
    rw [hft] at hopen
    exact absurd hopen (by simp)
  | some p =>
    rw [hft] at hopen
    obtain ⟨b, meta⟩ := p
    cases b with
    | false => simp at hopen
    | true =>
      simp only [Option.some.injEq] at hopen
      have hchd : s.chd = chd := by rw [← hopen]
      have hfo : s.frame_offset = 0 := by rw [← hopen]
      have hfph : s.frames_per_hunk =
          chd.header.hunkbytes / chd.header.unitbytes := by rw [← hopen]
      have hfs_eq : s.frame_size =
          (if meta.type = "MODE1_RAW" then SECTOR_SIZE
           else if meta.type = "MODE2_RAW" then SECTOR_SIZE
           else if meta.type = "AUDIO" then SECTOR_SIZE
           else chd.header.unitbytes) := by rw [← hopen]
      have hfs : 0 < s.frame_size := by
        rw [hfs_eq]
        split_ifs <;> simp [SECTOR_SIZE, hu]
      have hph : 0 < s.frames_per_hunk := by
        rw [hfph]
        exact Nat.div_pos hhb hu
      refine ⟨hfs, hph, by omega, ?_⟩
      intro off j hj
      have hm : off % s.frame_size < s.frame_size := Nat.mod_lt off hfs
      have hmodph : chdFrame s off % s.frames_per_hunk ≤ s.frames_per_hunk - 1 := by
        have := Nat.mod_lt (chdFrame s off) hph
        omega
      have hA : hunkByteOf s off ≤
          (s.frames_per_hunk - 1) * chd.header.unitbytes := by
        unfold hunkByteOf
        rw [hchd]
        exact Nat.mul_le_mul_right _ hmodph
      have hB : (s.frames_per_hunk - 1) * chd.header.unitbytes =
          s.frames_per_hunk * chd.header.unitbytes - chd.header.unitbytes := by
        rw [Nat.sub_one_mul]
      have hC : s.frames_per_hunk * chd.header.unitbytes ≤
          chd.header.hunkbytes := by
        rw [hfph]
        exact Nat.div_mul_le_self _ _
      have hD : chd.header.unitbytes ≤
          s.frames_per_hunk * chd.header.unitbytes :=
        Nat.le_mul_of_pos_left _ hph
      rw [hchd, hfo]
      omega

theorem chdstream_open_read_index_safety_witness :
    0 < sS.frame_size ∧ 0 < sS.frames_per_hunk ∧
    chdS.header.unitbytes ≠ 0 ∧
    ∀ off j, j < sS.frame_size - off % sS.frame_size →
      off % sS.frame_size + hunkByteOf sS off + sS.frame_offset + j <
        sS.chd.header.hunkbytes :=
  chdstream_open_read_index_safety chdS 1 2 sS (by rfl) (by decide)
    (by decide) (by decide)

end ChdStream
